import Mathlib

/-!
Verification of the advanced-vector container (src/advanced-vector/vector.h).

The development shallowly embeds the two components of the header:

- RawMemory, the raw-storage abstraction, is modelled as a list of slots.
  Each slot is an Option: some x models a slot holding a live, constructed
  object with value x, none models raw (uninitialized) storage.  The list
  length is the capacity of the block.
- Vector is a RawMemory together with a size field, exactly as in the source.

Placement construction, destruction, the std uninitialized algorithms and the
shifting algorithms used by the source are modelled as explicit slot
operations.  Exception paths (the try/catch blocks of EmplaceBack and Emplace)
are modelled by functions parametrised by the index at which the relocation or
shift throws; per the C++ standard, the uninitialized algorithms destroy the
objects they have already constructed when an exception escapes, which the
models reproduce step by step.
-/

namespace AdvVec

/-- Model of RawMemory (vector.h lines 9-90): a block of slots of raw storage.
A slot holding some x models a live object with value x placed there by the
owner; none models raw bytes.  The length of the slot list is the capacity. -/
structure RawMemory (α : Type) where
  slots : List (Option α)
deriving Repr, DecidableEq

/-- Capacity of a raw memory block, in elements (vector.h line 73). -/
def RawMemory.capacity {α : Type} (m : RawMemory α) : Nat :=
  m.slots.length

/-- Model of RawMemory.Allocate (vector.h line 79): a fresh block of n slots,
all raw; n = 0 models the null buffer. -/
def RawMemory.allocate (α : Type) (n : Nat) : RawMemory α :=
  ⟨List.replicate n none⟩

/-- The slot at index i; none when i is out of range (no object lives there). -/
def slotAt {α : Type} (m : RawMemory α) (i : Nat) : Option α :=
  m.slots.getD i none

/-- Model of placement new at slot i (new (buf + i) T(...)). -/
def constructAt {α : Type} (m : RawMemory α) (i : Nat) (x : α) : RawMemory α :=
  ⟨m.slots.set i (some x)⟩

/-- Model of assignment into the live slot i; at the value level an assignment
leaves the slot holding the assigned value, like a construction does. -/
def assignAt {α : Type} (m : RawMemory α) (i : Nat) (x : α) : RawMemory α :=
  ⟨m.slots.set i (some x)⟩

/-- Model of std destroy_at on slot i: the slot becomes raw storage. -/
def destroyAt {α : Type} (m : RawMemory α) (i : Nat) : RawMemory α :=
  ⟨m.slots.set i none⟩

/-- Reading the value stored in slot i (operator[]).  Total by returning the
default value on a raw or out-of-range slot; every use in the development is
guarded by a liveness fact, so the default is never observed. -/
def readAt {α : Type} [Inhabited α] (m : RawMemory α) (i : Nat) : α :=
  (slotAt m i).getD default

/-- Model of std destroy_n(m + off, n): slots off, off+1, ..., off+n-1 become
raw storage. -/
def destroyN {α : Type} (m : RawMemory α) (off : Nat) : Nat → RawMemory α
  | 0 => m
  | n + 1 => destroyN (destroyAt m off) (off + 1) n

/-- Model of the relocation and range-copy algorithms of the source
(std uninitialized_copy_n, std uninitialized_move_n, std copy): n values are
taken from src starting at srcOff and placed into dst starting at dstOff.  At
the value level a move construction, a copy construction and an assignment all
leave the destination slot holding the source value, so one model serves the
three algorithms. -/
def copyN {α : Type} [Inhabited α] (src : RawMemory α) (srcOff : Nat)
    (dst : RawMemory α) (dstOff : Nat) : Nat → RawMemory α
  | 0 => dst
  | n + 1 =>
      copyN src (srcOff + 1) (constructAt dst dstOff (readAt src srcOff)) (dstOff + 1) n

/-- Model of std uninitialized_value_construct_n(m + off, n): slots off ..
off+n-1 receive value-constructed (default) objects. -/
def valueConstructN {α : Type} [Inhabited α] (m : RawMemory α) (off : Nat) :
    Nat → RawMemory α
  | 0 => m
  | n + 1 => valueConstructN (constructAt m off default) (off + 1) n

/-- Model of k executed steps of std move_backward ending at slot hi: step t
assigns slot (hi - t) from the value of slot (hi - t - 1), for t = 0 .. k-1
(the algorithm walks from the back of the range towards the front). -/
def moveBackwardK {α : Type} [Inhabited α] (m : RawMemory α) (hi : Nat) :
    Nat → RawMemory α
  | 0 => m
  | k + 1 => moveBackwardK (assignAt m hi (readAt m (hi - 1))) (hi - 1) k

/-- Model of k executed steps of std move over a range starting at slot first:
step t assigns slot (first + t - 1) from the value of slot (first + t), for
t = 0 .. k-1 (the algorithm walks from the front of the range to the back). -/
def moveForwardK {α : Type} [Inhabited α] (m : RawMemory α) (first : Nat) :
    Nat → RawMemory α
  | 0 => m
  | k + 1 => moveForwardK (assignAt m (first - 1) (readAt m first)) (first + 1) k

/-- Number of destructor calls that std destroy_n(m + off, n) would issue on
slots that do not hold a live object: each such call runs a destructor on raw
storage, which is undefined behaviour. -/
def rawDestroyCount {α : Type} (m : RawMemory α) (off n : Nat) : Nat :=
  ((List.range n).filter (fun j => (slotAt m (off + j)).isNone)).length

section SlotLemmas

variable {α : Type}

theorem capacity_allocate (n : Nat) : (RawMemory.allocate α n).capacity = n := by
  simp [RawMemory.allocate, RawMemory.capacity]

theorem slotAt_allocate (n i : Nat) : slotAt (RawMemory.allocate α n) i = none := by
  simp only [RawMemory.allocate, slotAt, List.getD_eq_getElem?_getD]
  rcases Nat.lt_or_ge i n with h | h
  · simp [List.getElem?_replicate, h]
  · rw [List.getElem?_eq_none (by simpa using h)]
    rfl

theorem slotAt_out_of_range {m : RawMemory α} {i : Nat} (h : m.capacity ≤ i) :
    slotAt m i = none := by
  simp only [slotAt, List.getD_eq_getElem?_getD]
  rw [List.getElem?_eq_none (by simpa [RawMemory.capacity] using h)]
  rfl

theorem slotAt_set (m : RawMemory α) (j : Nat) (x : Option α) (i : Nat) :
    slotAt ⟨m.slots.set j x⟩ i =
      if i = j ∧ j < m.capacity then x else slotAt m i := by
  simp only [slotAt, List.getD_eq_getElem?_getD, List.getElem?_set, RawMemory.capacity]
  by_cases hij : i = j
  · subst hij
    by_cases hlen : i < m.slots.length
    · simp [hlen]
    · rw [List.getElem?_eq_none (by omega)]
      simp [hlen]
  · simp [hij, Ne.symm hij]

theorem slotAt_constructAt (m : RawMemory α) (j : Nat) (x : α) (i : Nat) :
    slotAt (constructAt m j x) i =
      if i = j ∧ j < m.capacity then some x else slotAt m i :=
  slotAt_set m j (some x) i

theorem slotAt_assignAt (m : RawMemory α) (j : Nat) (x : α) (i : Nat) :
    slotAt (assignAt m j x) i =
      if i = j ∧ j < m.capacity then some x else slotAt m i :=
  slotAt_set m j (some x) i

theorem slotAt_destroyAt (m : RawMemory α) (j : Nat) (i : Nat) :
    slotAt (destroyAt m j) i =
      if i = j ∧ j < m.capacity then none else slotAt m i :=
  slotAt_set m j none i

theorem capacity_constructAt (m : RawMemory α) (j : Nat) (x : α) :
    (constructAt m j x).capacity = m.capacity := by
  simp [constructAt, RawMemory.capacity]

theorem capacity_assignAt (m : RawMemory α) (j : Nat) (x : α) :
    (assignAt m j x).capacity = m.capacity := by
  simp [assignAt, RawMemory.capacity]

theorem capacity_destroyAt (m : RawMemory α) (j : Nat) :
    (destroyAt m j).capacity = m.capacity := by
  simp [destroyAt, RawMemory.capacity]

theorem capacity_destroyN :
    ∀ (n off : Nat) (m : RawMemory α), (destroyN m off n).capacity = m.capacity := by
  intro n
  induction n with
  | zero => intro off m; rfl
  | succ n ih =>
      intro off m
      simp only [destroyN]
      rw [ih (off + 1)]
      exact capacity_destroyAt m off

theorem slotAt_destroyN :
    ∀ (n off : Nat) (m : RawMemory α) (i : Nat),
      slotAt (destroyN m off n) i =
        if off ≤ i ∧ i < off + n then none else slotAt m i := by
  intro n
  induction n with
  | zero =>
      intro off m i
      simp only [destroyN]
      rw [if_neg (by omega)]
  | succ n ih =>
      intro off m i
      simp only [destroyN]
      rw [ih (off + 1), slotAt_destroyAt]
      split_ifs with h1 h2 h3
      · rfl
      · omega
      · rfl
      · omega
      · exact slotAt_out_of_range (by omega)
      · rfl

theorem some_getD_of_isSome {o : Option α} (h : o.isSome = true) (d : α) :
    some (o.getD d) = o := by
  cases o with
  | none => simp at h
  | some v => rfl

theorem capacity_copyN [Inhabited α] (src : RawMemory α) :
    ∀ (n srcOff dstOff : Nat) (dst : RawMemory α),
      (copyN src srcOff dst dstOff n).capacity = dst.capacity := by
  intro n
  induction n with
  | zero => intro srcOff dstOff dst; rfl
  | succ n ih =>
      intro srcOff dstOff dst
      simp only [copyN]
      rw [ih]
      exact capacity_constructAt dst dstOff _

theorem slotAt_copyN [Inhabited α] (src : RawMemory α) :
    ∀ (n srcOff dstOff : Nat) (dst : RawMemory α) (i : Nat),
      slotAt (copyN src srcOff dst dstOff n) i =
        if dstOff ≤ i ∧ i < dstOff + n ∧ i < dst.capacity
        then some (readAt src (srcOff + (i - dstOff)))
        else slotAt dst i := by
  intro n
  induction n with
  | zero =>
      intro srcOff dstOff dst i
      simp only [copyN]
      rw [if_neg (by omega)]
  | succ n ih =>
      intro srcOff dstOff dst i
      simp only [copyN]
      rw [ih, slotAt_constructAt]
      simp only [capacity_constructAt]
      split_ifs with h1 h2 h3
      · have h : srcOff + 1 + (i - (dstOff + 1)) = srcOff + (i - dstOff) := by omega
        rw [h]
      · omega
      · have h : i - dstOff = 0 := by omega
        rw [h, Nat.add_zero]
      · omega
      · omega
      · rfl

theorem capacity_valueConstructN [Inhabited α] :
    ∀ (n off : Nat) (m : RawMemory α),
      (valueConstructN m off n).capacity = m.capacity := by
  intro n
  induction n with
  | zero => intro off m; rfl
  | succ n ih =>
      intro off m
      simp only [valueConstructN]
      rw [ih]
      exact capacity_constructAt m off _

theorem slotAt_valueConstructN [Inhabited α] :
    ∀ (n off : Nat) (m : RawMemory α) (i : Nat),
      slotAt (valueConstructN m off n) i =
        if off ≤ i ∧ i < off + n ∧ i < m.capacity
        then some (default : α)
        else slotAt m i := by
  intro n
  induction n with
  | zero =>
      intro off m i
      simp only [valueConstructN]
      rw [if_neg (by omega)]
  | succ n ih =>
      intro off m i
      simp only [valueConstructN]
      rw [ih, slotAt_constructAt]
      simp only [capacity_constructAt]
      split_ifs with h1 h2 h3
      · rfl
      · omega
      · rfl
      · omega
      · omega
      · rfl

theorem capacity_moveBackwardK [Inhabited α] :
    ∀ (k hi : Nat) (m : RawMemory α),
      (moveBackwardK m hi k).capacity = m.capacity := by
  intro k
  induction k with
  | zero => intro hi m; rfl
  | succ k ih =>
      intro hi m
      simp only [moveBackwardK]
      rw [ih]
      exact capacity_assignAt m hi _

theorem slotAt_moveBackwardK [Inhabited α] :
    ∀ (k hi : Nat) (m : RawMemory α), k ≤ hi → hi < m.capacity →
      (∀ j, hi - k ≤ j → j < hi → (slotAt m j).isSome = true) →
      ∀ i, slotAt (moveBackwardK m hi k) i =
        if hi - k < i ∧ i ≤ hi then slotAt m (i - 1) else slotAt m i := by
  intro k
  induction k with
  | zero =>
      intro hi m _ _ _ i
      simp only [moveBackwardK]
      rw [if_neg (by omega)]
  | succ k ih =>
      intro hi m hk hcap hlive i
      simp only [moveBackwardK]
      have hcap2 : hi - 1 < (assignAt m hi (readAt m (hi - 1))).capacity := by
        rw [capacity_assignAt]
        omega
      have hlive2 : ∀ j, hi - 1 - k ≤ j → j < hi - 1 →
          (slotAt (assignAt m hi (readAt m (hi - 1))) j).isSome = true := by
        intro j hj1 hj2
        rw [slotAt_assignAt, if_neg (by omega)]
        exact hlive j (by omega) (by omega)
      rw [ih (hi - 1) _ (by omega) hcap2 hlive2 i]
      rw [slotAt_assignAt, slotAt_assignAt]
      split_ifs with h1 h2 h3 <;> try rfl
      all_goals try omega
      have hgoal : i - 1 = hi - 1 := by omega
      rw [hgoal]
      exact some_getD_of_isSome (hlive (hi - 1) (by omega) (by omega)) _

theorem capacity_moveForwardK [Inhabited α] :
    ∀ (k first : Nat) (m : RawMemory α),
      (moveForwardK m first k).capacity = m.capacity := by
  intro k
  induction k with
  | zero => intro first m; rfl
  | succ k ih =>
      intro first m
      simp only [moveForwardK]
      rw [ih]
      exact capacity_assignAt m (first - 1) _

theorem slotAt_moveForwardK [Inhabited α] :
    ∀ (k first : Nat) (m : RawMemory α), 1 ≤ first →
      first - 1 + k ≤ m.capacity →
      (∀ j, first ≤ j → j < first + k → (slotAt m j).isSome = true) →
      ∀ i, slotAt (moveForwardK m first k) i =
        if first - 1 ≤ i ∧ i < first - 1 + k then slotAt m (i + 1) else slotAt m i := by
  intro k
  induction k with
  | zero =>
      intro first m _ _ _ i
      simp only [moveForwardK]
      rw [if_neg (by omega)]
  | succ k ih =>
      intro first m hfirst hcap hlive i
      simp only [moveForwardK]
      have hcap2 : first + 1 - 1 + k ≤ (assignAt m (first - 1) (readAt m first)).capacity := by
        rw [capacity_assignAt]
        omega
      have hlive2 : ∀ j, first + 1 ≤ j → j < first + 1 + k →
          (slotAt (assignAt m (first - 1) (readAt m first)) j).isSome = true := by
        intro j hj1 hj2
        rw [slotAt_assignAt, if_neg (by omega)]
        exact hlive j (by omega) (by omega)
      rw [ih (first + 1) _ (by omega) hcap2 hlive2 i]
      rw [slotAt_assignAt, slotAt_assignAt]
      split_ifs with h1 h2 h3 <;> try rfl
      all_goals try omega
      have hgoal : i + 1 = first := by omega
      rw [hgoal]
      exact some_getD_of_isSome (hlive first (by omega) (by omega)) _

end SlotLemmas

/-- Model of Vector (vector.h lines 93-340): a RawMemory data block plus the
count of live elements. -/
structure Vector (α : Type) where
  data : RawMemory α
  size : Nat
deriving Repr, DecidableEq

namespace Vector

variable {α : Type}

/-- Capacity of the vector (vector.h lines 158-160). -/
def capacity (v : Vector α) : Nat :=
  v.data.capacity

/-- The class invariant of Vector: the size never exceeds the capacity, the
slots at indices below size hold live objects, and the slots from size up to
the capacity are raw storage. -/
def WF (v : Vector α) : Prop :=
  v.size ≤ v.capacity ∧
    ∀ i, i < v.capacity → ((slotAt v.data i).isSome = true ↔ i < v.size)

instance (v : Vector α) : Decidable v.WF := by
  unfold WF
  infer_instance

theorem WF.live {v : Vector α} (h : v.WF) {i : Nat} (hi : i < v.size) :
    (slotAt v.data i).isSome = true :=
  (h.2 i (lt_of_lt_of_le hi h.1)).mpr hi

theorem WF.raw {v : Vector α} (h : v.WF) {i : Nat} (hi : v.size ≤ i) :
    slotAt v.data i = none := by
  rcases Nat.lt_or_ge i v.capacity with hc | hc
  · cases heq : slotAt v.data i with
    | none => rfl
    | some x =>
        have : i < v.size := (h.2 i hc).mp (by rw [heq]; rfl)
        omega
  · exact slotAt_out_of_range hc

/-- The sequence of live element values, in index order: the observable
content of the vector through operator[], begin and end. -/
def elems [Inhabited α] (v : Vector α) : List α :=
  (List.range v.size).map (fun i => readAt v.data i)

theorem length_elems [Inhabited α] (v : Vector α) : v.elems.length = v.size := by
  simp [elems]

theorem elems_congr [Inhabited α] {v w : Vector α} (hsize : w.size = v.size)
    (hread : ∀ i, i < v.size → readAt w.data i = readAt v.data i) :
    w.elems = v.elems := by
  unfold elems
  rw [hsize]
  exact List.map_congr_left (fun i hi => hread i (List.mem_range.mp hi))

/-- Model of the Vector default constructor (vector.h line 96): null buffer,
size zero. -/
def nil : Vector α := ⟨⟨[]⟩, 0⟩

/-- Model of the sized constructor (vector.h lines 98-103): allocate storage
for size elements and value-construct all of them. -/
def ofSize [Inhabited α] (n : Nat) : Vector α :=
  ⟨valueConstructN (RawMemory.allocate α n) 0 n, n⟩

/-- Model of the copy constructor (vector.h lines 105-110): allocate storage
sized to the source size and copy-construct the live elements into it. -/
def copyCtor [Inhabited α] (other : Vector α) : Vector α :=
  ⟨copyN other.data 0 (RawMemory.allocate α other.size) 0 other.size, other.size⟩

/-- Model of the move constructor (vector.h lines 112-116): the new vector
takes the buffer and size of the source; the source is left with a null
buffer and size zero.  The pair is (new vector, source afterwards). -/
def moveCtor (other : Vector α) : Vector α × Vector α :=
  (⟨other.data, other.size⟩, ⟨⟨[]⟩, 0⟩)

/-- Model of Swap (vector.h lines 149-152): buffers and sizes are exchanged.
The pair is (first vector afterwards, second vector afterwards). -/
def swap (a b : Vector α) : Vector α × Vector α :=
  (⟨b.data, b.size⟩, ⟨a.data, a.size⟩)

/-- Model of the move assignment operator (vector.h lines 144-147): a plain
Swap with the right-hand side.  The pair is (assigned-to vector afterwards,
right-hand side afterwards). -/
def moveAssign (dst rhs : Vector α) : Vector α × Vector α :=
  swap dst rhs

/-- Model of the copy assignment operator (vector.h lines 118-142): when the
source fits into the current capacity the storage is reused (assign the
overlapping prefix, then either copy-construct the growth or destroy the
excess tail); otherwise copy-construct a whole new vector and swap it in. -/
def copyAssign [Inhabited α] (dst rhs : Vector α) : Vector α :=
  if rhs.size ≤ dst.capacity then
    if dst.size ≤ rhs.size then
      ⟨copyN rhs.data dst.size (copyN rhs.data 0 dst.data 0 dst.size)
        dst.size (rhs.size - dst.size), rhs.size⟩
    else
      ⟨destroyN (copyN rhs.data 0 dst.data 0 rhs.size)
        rhs.size (dst.size - rhs.size), rhs.size⟩
  else
    copyCtor rhs

/-- Model of Reserve (vector.h lines 171-186): no-op when the requested
capacity does not exceed the current one; otherwise allocate a block of
exactly newCapacity slots, relocate the live elements into it, destroy the
old elements and swap the buffers (the old block is discarded). -/
def Reserve [Inhabited α] (v : Vector α) (newCapacity : Nat) : Vector α :=
  if newCapacity ≤ v.capacity then v
  else
    ⟨copyN v.data 0 (RawMemory.allocate α newCapacity) 0 v.size, v.size⟩

/-- The compile-time properties of the element type that the source consults
when choosing between move and copy relocation. -/
structure Traits where
  nothrowMoveConstructible : Bool
  copyConstructible : Bool
deriving Repr, DecidableEq

/-- The condition of the if-constexpr guarding relocation in Reserve,
EmplaceBack and Emplace (vector.h lines 176-177, 221, 276): relocation is done
with move construction exactly when this evaluates to true, and with copy
construction otherwise. -/
def relocateUsesMove (t : Traits) : Bool :=
  t.nothrowMoveConstructible || !t.copyConstructible

/-- Model of Resize (vector.h lines 188-199): shrinking destroys the tail
elements in place; growing reserves capacity when needed and then
value-constructs the new tail; the size field is assigned last. -/
def Resize [Inhabited α] (v : Vector α) (newSize : Nat) : Vector α :=
  if newSize < v.size then
    ⟨destroyN v.data newSize (v.size - newSize), newSize⟩
  else
    ⟨valueConstructN (if v.capacity < newSize then v.Reserve newSize else v).data
      v.size (newSize - v.size), newSize⟩

/-- Model of EmplaceBack (vector.h lines 215-238), success path.  When the
capacity is exhausted, a new block of (size == 0 ? 1 : size * 2) slots is
allocated, the new element is constructed directly at its final slot (index
size), the old elements are relocated into the block, the old elements are
destroyed and the buffers swapped.  Otherwise the new element is constructed
in place at index size. -/
def EmplaceBack [Inhabited α] (v : Vector α) (x : α) : Vector α :=
  if v.capacity ≤ v.size then
    ⟨copyN v.data 0
      (constructAt (RawMemory.allocate α (if v.size = 0 then 1 else v.size * 2)) v.size x)
      0 v.size, v.size + 1⟩
  else
    ⟨constructAt v.data v.size x, v.size + 1⟩

/-- Model of PushBack (vector.h lines 201-207): delegates to EmplaceBack. -/
def PushBack [Inhabited α] (v : Vector α) (x : α) : Vector α :=
  EmplaceBack v x

/-- Model of PopBack (vector.h lines 209-213): destroy the last live element
and decrement the size; requires size > 0. -/
def PopBack (v : Vector α) : Vector α :=
  ⟨destroyAt v.data (v.size - 1), v.size - 1⟩

/-- Model of Emplace (vector.h lines 267-314), success path, with the insert
position given as the offset d from begin (the distance the source computes).
Growth path: allocate (size == 0 ? 1 : size * 2) slots, construct the new
element at its final slot d, relocate the prefix to slots 0..d-1 and the
suffix to slots d+1..size, destroy the old elements and swap.  In-place path
with d below size: construct the new value in a temporary, move-construct the
last element into slot size, shift slots d..size-2 one slot up via
move_backward, then assign the temporary into slot d.  In-place path with
d equal to size: construct at slot size. -/
def Emplace [Inhabited α] (v : Vector α) (d : Nat) (x : α) : Vector α :=
  if v.capacity ≤ v.size then
    ⟨copyN v.data d
      (copyN v.data 0
        (constructAt (RawMemory.allocate α (if v.size = 0 then 1 else v.size * 2)) d x)
        0 d)
      (d + 1) (v.size - d), v.size + 1⟩
  else
    if d ≠ v.size then
      ⟨assignAt
        (moveBackwardK (constructAt v.data v.size (readAt v.data (v.size - 1)))
          (v.size - 1) (v.size - 1 - d))
        d x, v.size + 1⟩
    else
      ⟨constructAt v.data v.size x, v.size + 1⟩

/-- Model of Insert (vector.h lines 325-331): delegates to Emplace. -/
def Insert [Inhabited α] (v : Vector α) (d : Nat) (x : α) : Vector α :=
  Emplace v d x

/-- Model of Erase (vector.h lines 316-323), position given as the offset d:
shift slots d+1..size-1 one slot down via move assignment, destroy the
vacated last slot and decrement the size; requires d < size. -/
def Erase [Inhabited α] (v : Vector α) (d : Nat) : Vector α :=
  ⟨destroyAt (moveForwardK v.data (d + 1) (v.size - (d + 1))) (v.size - 1), v.size - 1⟩

/-- Model of the exception path of EmplaceBack on growth (vector.h lines
216-233) when relocation throws while processing element k (k < size): the
new element was already constructed at slot size of the new block; the
relocation algorithm constructed copies at slots 0..k-1, threw, and (per the
C++ standard) destroyed the objects it had constructed; the catch handler
destroys the new element at slot size and rethrows, so neither the destroy of
the old elements, nor the buffer swap, nor the size increment executes.  The
pair is (the vector afterwards, the discarded new block afterwards). -/
def EmplaceBackGrowFail [Inhabited α] (v : Vector α) (x : α) (k : Nat) :
    Vector α × RawMemory α :=
  (v, destroyAt
    (destroyN
      (copyN v.data 0
        (constructAt (RawMemory.allocate α (if v.size = 0 then 1 else v.size * 2)) v.size x)
        0 k)
      0 k)
    v.size)

/-- Model of the exception path of Emplace on growth (vector.h lines 272-292)
when relocation throws while processing old element k: for k < d the prefix
relocation constructed slots 0..k-1 and destroyed them again when the
exception escaped; for d ≤ k < size the prefix was fully relocated and the
suffix relocation constructed slots d+1..k and destroyed them again.  The
catch handler then runs destroy_n over slots 0..d of the new block and
rethrows.  The triple is (the vector afterwards, the discarded new block
afterwards, the number of destructor calls the catch handler issued on slots
that held no live object - each such call is undefined behaviour).
The state of the new block at the moment the catch handler starts is
factored out as emplaceGrowCaughtState. -/
def emplaceGrowCaughtState [Inhabited α] (v : Vector α) (d : Nat) (x : α) (k : Nat) :
    RawMemory α :=
  if k < d then
    destroyN
      (copyN v.data 0
        (constructAt (RawMemory.allocate α (if v.size = 0 then 1 else v.size * 2)) d x)
        0 k)
      0 k
  else
    destroyN
      (copyN v.data d
        (copyN v.data 0
          (constructAt (RawMemory.allocate α (if v.size = 0 then 1 else v.size * 2)) d x)
          0 d)
        (d + 1) (k - d))
      (d + 1) (k - d)

def EmplaceGrowFail [Inhabited α] (v : Vector α) (d : Nat) (x : α) (k : Nat) :
    Vector α × RawMemory α × Nat :=
  (v, destroyN (emplaceGrowCaughtState v d x k) 0 (d + 1),
      rawDestroyCount (emplaceGrowCaughtState v d x k) 0 (d + 1))

/-- Model of the exception path of the in-place branch of Emplace (vector.h
lines 293-305) when the backward shift throws after j completed move
assignments: the last element had been move-constructed into slot size; the
catch handler destroys slot size and rethrows, so the size increment never
executes and the vector keeps its old size. -/
def EmplaceShiftFail [Inhabited α] (v : Vector α) (j : Nat) : Vector α :=
  ⟨destroyAt
    (moveBackwardK (constructAt v.data v.size (readAt v.data (v.size - 1)))
      (v.size - 1) j)
    v.size, v.size⟩

/-- Model of the exception path of Resize on growth (vector.h lines 188-199)
when value construction of the tail throws after j constructed elements: the
algorithm destroys the elements it constructed, and the final assignment to
the size field never executes.  A Reserve that already completed is kept. -/
def ResizeGrowFail [Inhabited α] (v : Vector α) (newSize j : Nat) : Vector α :=
  ⟨destroyN
    (valueConstructN (if v.capacity < newSize then v.Reserve newSize else v).data v.size j)
    v.size j, v.size⟩

/-- The states reachable by finite sequences of the public operations of
Vector, starting from any constructor, with each operation invoked within its
documented precondition (the assert contracts of the source). -/
inductive Reachable [Inhabited α] : Vector α → Prop
  | nil : Reachable nil
  | ofSize (n : Nat) : Reachable (ofSize n)
  | copyCtor {v : Vector α} : Reachable v → Reachable (copyCtor v)
  | moveCtorNew {v : Vector α} : Reachable v → Reachable (moveCtor v).1
  | moveCtorSrc {v : Vector α} : Reachable v → Reachable (moveCtor v).2
  | copyAssign {a b : Vector α} : Reachable a → Reachable b →
      Reachable (copyAssign a b)
  | moveAssignDst {a b : Vector α} : Reachable a → Reachable b →
      Reachable (moveAssign a b).1
  | moveAssignSrc {a b : Vector α} : Reachable a → Reachable b →
      Reachable (moveAssign a b).2
  | swapFst {a b : Vector α} : Reachable a → Reachable b →
      Reachable (swap a b).1
  | swapSnd {a b : Vector α} : Reachable a → Reachable b →
      Reachable (swap a b).2
  | reserve {v : Vector α} (n : Nat) : Reachable v → Reachable (Reserve v n)
  | resize {v : Vector α} (n : Nat) : Reachable v → Reachable (Resize v n)
  | pushBack {v : Vector α} (x : α) : Reachable v → Reachable (PushBack v x)
  | emplaceBack {v : Vector α} (x : α) : Reachable v → Reachable (EmplaceBack v x)
  | popBack {v : Vector α} : Reachable v → 0 < v.size → Reachable (PopBack v)
  | emplace {v : Vector α} (d : Nat) (x : α) : Reachable v → d ≤ v.size →
      Reachable (Emplace v d x)
  | insert {v : Vector α} (d : Nat) (x : α) : Reachable v → d ≤ v.size →
      Reachable (Insert v d x)
  | erase {v : Vector α} (d : Nat) : Reachable v → d < v.size →
      Reachable (Erase v d)

section OpLemmas
variable {α : Type}

theorem data_capacity (v : Vector α) : v.data.capacity = v.capacity := rfl

theorem slot_eq_some_readAt [Inhabited α] {m : RawMemory α} {i : Nat}
    (h : (slotAt m i).isSome = true) : slotAt m i = some (readAt m i) :=
  (some_getD_of_isSome h _).symm

theorem WF_of_slots {v : Vector α} (hcap : v.size ≤ v.capacity)
    (hlive : ∀ i, i < v.size → (slotAt v.data i).isSome = true)
    (hraw : ∀ i, v.size ≤ i → i < v.capacity → slotAt v.data i = none) :
    v.WF := by
  refine ⟨hcap, fun i hi => ⟨?_, fun h => hlive i h⟩⟩
  intro hsome
  by_contra h
  rw [hraw i (by omega) hi] at hsome
  simp at hsome

theorem WF_nil : (nil : Vector α).WF := by
  constructor
  · exact Nat.le_refl 0
  · intro i hi
    simp [nil, capacity, RawMemory.capacity] at hi

theorem size_ofSize [Inhabited α] (n : Nat) : (ofSize n : Vector α).size = n := rfl

theorem capacity_ofSize [Inhabited α] (n : Nat) : (ofSize n : Vector α).capacity = n := by
  show (valueConstructN (RawMemory.allocate α n) 0 n).capacity = n
  rw [capacity_valueConstructN, capacity_allocate]

theorem WF_ofSize [Inhabited α] (n : Nat) : (ofSize n : Vector α).WF := by
  refine WF_of_slots ?_ ?_ ?_
  · rw [size_ofSize, capacity_ofSize]
  · intro i hi
    rw [size_ofSize] at hi
    show (slotAt (valueConstructN (RawMemory.allocate α n) 0 n) i).isSome = true
    rw [slotAt_valueConstructN]
    simp only [capacity_allocate, Nat.zero_add]
    rw [if_pos (by omega)]
    rfl
  · intro i hi _
    rw [size_ofSize] at hi
    show slotAt (valueConstructN (RawMemory.allocate α n) 0 n) i = none
    rw [slotAt_valueConstructN]
    simp only [capacity_allocate, Nat.zero_add]
    rw [if_neg (by omega)]
    exact slotAt_allocate n i

theorem size_copyCtor [Inhabited α] (v : Vector α) : (copyCtor v).size = v.size := rfl

theorem capacity_copyCtor [Inhabited α] (v : Vector α) :
    (copyCtor v).capacity = v.size := by
  show (copyN v.data 0 (RawMemory.allocate α v.size) 0 v.size).capacity = v.size
  rw [capacity_copyN, capacity_allocate]

theorem slot_copyCtor [Inhabited α] {v : Vector α} (hwf : v.WF) (i : Nat) :
    slotAt (copyCtor v).data i =
      if i < v.size then slotAt v.data i else none := by
  show slotAt (copyN v.data 0 (RawMemory.allocate α v.size) 0 v.size) i = _
  rw [slotAt_copyN]
  simp only [capacity_allocate, Nat.zero_add, Nat.sub_zero]
  split_ifs with h1 h2
  · exact (slot_eq_some_readAt (hwf.live h2)).symm
  · omega
  · omega
  · exact slotAt_allocate _ _

theorem WF_copyCtor [Inhabited α] {v : Vector α} (hwf : v.WF) : (copyCtor v).WF := by
  refine WF_of_slots ?_ ?_ ?_
  · rw [size_copyCtor, capacity_copyCtor]
  · intro i hi
    rw [size_copyCtor] at hi
    rw [slot_copyCtor hwf, if_pos hi]
    exact hwf.live hi
  · intro i hi _
    rw [size_copyCtor] at hi
    rw [slot_copyCtor hwf, if_neg (by omega)]

theorem elems_copyCtor [Inhabited α] {v : Vector α} (hwf : v.WF) :
    (copyCtor v).elems = v.elems := by
  refine elems_congr rfl ?_
  intro i hi
  unfold readAt
  rw [slot_copyCtor hwf, if_pos hi]

theorem Reserve_eq_of_le [Inhabited α] {v : Vector α} {n : Nat}
    (h : n ≤ v.capacity) : v.Reserve n = v := by
  unfold Reserve
  rw [if_pos h]

theorem Reserve_size [Inhabited α] (v : Vector α) (n : Nat) :
    (v.Reserve n).size = v.size := by
  unfold Reserve
  split_ifs <;> rfl

theorem Reserve_capacity_of_gt [Inhabited α] {v : Vector α} {n : Nat}
    (h : v.capacity < n) : (v.Reserve n).capacity = n := by
  unfold Reserve
  rw [if_neg (by omega)]
  show (copyN v.data 0 (RawMemory.allocate α n) 0 v.size).capacity = n
  rw [capacity_copyN, capacity_allocate]

theorem Reserve_capacity [Inhabited α] (v : Vector α) (n : Nat) :
    (v.Reserve n).capacity = max v.capacity n := by
  rcases Nat.lt_or_ge v.capacity n with h | h
  · rw [Reserve_capacity_of_gt h]
    omega
  · rw [Reserve_eq_of_le (by omega)]
    omega

theorem slot_Reserve_of_gt [Inhabited α] {v : Vector α} {n : Nat}
    (hwf : v.WF) (h : v.capacity < n) (i : Nat) :
    slotAt (v.Reserve n).data i =
      if i < v.size then slotAt v.data i else none := by
  have hsz := hwf.1
  unfold Reserve
  rw [if_neg (by omega)]
  show slotAt (copyN v.data 0 (RawMemory.allocate α n) 0 v.size) i = _
  rw [slotAt_copyN]
  simp only [capacity_allocate, Nat.zero_add, Nat.sub_zero]
  split_ifs with h1 h2
  · exact (slot_eq_some_readAt (hwf.live h2)).symm
  · omega
  · omega
  · exact slotAt_allocate _ _

theorem slot_Reserve_live [Inhabited α] {v : Vector α} {n : Nat}
    (hwf : v.WF) {i : Nat} (hi : i < v.size) :
    slotAt (v.Reserve n).data i = slotAt v.data i := by
  rcases Nat.lt_or_ge v.capacity n with h | h
  · rw [slot_Reserve_of_gt hwf h, if_pos hi]
  · rw [Reserve_eq_of_le h]

theorem elems_Reserve [Inhabited α] {v : Vector α} (hwf : v.WF) (n : Nat) :
    (v.Reserve n).elems = v.elems := by
  refine elems_congr (Reserve_size v n) ?_
  intro i hi
  unfold readAt
  rw [slot_Reserve_live hwf hi]

theorem WF_Reserve [Inhabited α] {v : Vector α} (hwf : v.WF) (n : Nat) :
    (v.Reserve n).WF := by
  rcases Nat.lt_or_ge v.capacity n with h | h
  · have hsz := hwf.1
    refine WF_of_slots ?_ ?_ ?_
    · rw [Reserve_size, Reserve_capacity_of_gt h]
      omega
    · intro i hi
      rw [Reserve_size] at hi
      rw [slot_Reserve_of_gt hwf h, if_pos hi]
      exact hwf.live hi
    · intro i hi _
      rw [Reserve_size] at hi
      rw [slot_Reserve_of_gt hwf h, if_neg (by omega)]
  · rw [Reserve_eq_of_le h]
    exact hwf

theorem Resize_size [Inhabited α] (v : Vector α) (n : Nat) :
    (v.Resize n).size = n := by
  unfold Resize
  split_ifs <;> rfl

theorem Resize_capacity [Inhabited α] {v : Vector α} (hsz : v.size ≤ v.capacity)
    (n : Nat) : (v.Resize n).capacity = max v.capacity n := by
  unfold Resize
  split_ifs with h1 h2
  · show (destroyN v.data n (v.size - n)).capacity = _
    rw [capacity_destroyN, data_capacity]
    omega
  · show (valueConstructN (v.Reserve n).data v.size (n - v.size)).capacity = _
    rw [capacity_valueConstructN, data_capacity, Reserve_capacity_of_gt h2]
    omega
  · show (valueConstructN v.data v.size (n - v.size)).capacity = _
    rw [capacity_valueConstructN, data_capacity]
    omega

theorem slot_Resize [Inhabited α] {v : Vector α} (hwf : v.WF) (n : Nat) (i : Nat) :
    slotAt (v.Resize n).data i =
      if i < min n v.size then slotAt v.data i
      else if i < n then some (default : α)
      else none := by
  have hsz := hwf.1
  unfold Resize
  rcases Nat.lt_or_ge n v.size with h1 | h1
  · rw [if_pos h1]
    show slotAt (destroyN v.data n (v.size - n)) i = _
    rw [slotAt_destroyN]
    split_ifs <;> first | rfl | omega | (exact hwf.raw (by omega))
  · rw [if_neg (by omega)]
    rcases Nat.lt_or_ge v.capacity n with h2 | h2
    · rw [if_pos h2]
      show slotAt (valueConstructN (v.Reserve n).data v.size (n - v.size)) i = _
      rw [slotAt_valueConstructN]
      simp only [data_capacity, Reserve_capacity_of_gt h2]
      rw [slot_Reserve_of_gt hwf h2]
      split_ifs <;> first | rfl | omega
    · rw [if_neg (by omega)]
      show slotAt (valueConstructN v.data v.size (n - v.size)) i = _
      rw [slotAt_valueConstructN]
      simp only [data_capacity]
      split_ifs <;> first | rfl | omega | (exact hwf.raw (by omega))

theorem WF_Resize [Inhabited α] {v : Vector α} (hwf : v.WF) (n : Nat) :
    (v.Resize n).WF := by
  refine WF_of_slots ?_ ?_ ?_
  · rw [Resize_size, Resize_capacity hwf.1]
    omega
  · intro i hi
    rw [Resize_size] at hi
    rw [slot_Resize hwf]
    split_ifs with h1 h2
    all_goals first | rfl | (exact hwf.live (by omega)) | omega
  · intro i hi _
    rw [Resize_size] at hi
    rw [slot_Resize hwf, if_neg (by omega), if_neg (by omega)]

theorem size_PopBack (v : Vector α) : (v.PopBack).size = v.size - 1 := rfl

theorem capacity_PopBack (v : Vector α) : (v.PopBack).capacity = v.capacity := by
  show (destroyAt v.data (v.size - 1)).capacity = v.capacity
  rw [capacity_destroyAt, data_capacity]

theorem slot_PopBack {v : Vector α} (hwf : v.WF) (hpos : 0 < v.size) (i : Nat) :
    slotAt (v.PopBack).data i =
      if i < v.size - 1 then slotAt v.data i else none := by
  have hsz := hwf.1
  show slotAt (destroyAt v.data (v.size - 1)) i = _
  rw [slotAt_destroyAt]
  simp only [data_capacity]
  split_ifs <;> first | rfl | omega | (exact hwf.raw (by omega))

theorem WF_PopBack {v : Vector α} (hwf : v.WF) (hpos : 0 < v.size) :
    (v.PopBack).WF := by
  refine WF_of_slots ?_ ?_ ?_
  · rw [size_PopBack, capacity_PopBack]
    have := hwf.1
    omega
  · intro i hi
    rw [size_PopBack] at hi
    rw [slot_PopBack hwf hpos, if_pos hi]
    exact hwf.live (by omega)
  · intro i hi _
    rw [size_PopBack] at hi
    rw [slot_PopBack hwf hpos, if_neg (by omega)]
theorem size_EmplaceBack [Inhabited α] (v : Vector α) (x : α) :
    (v.EmplaceBack x).size = v.size + 1 := by
  unfold EmplaceBack
  split_ifs <;> rfl

theorem capacity_EmplaceBack [Inhabited α] (v : Vector α) (x : α) :
    (v.EmplaceBack x).capacity =
      if v.capacity ≤ v.size then (if v.size = 0 then 1 else v.size * 2)
      else v.capacity := by
  unfold EmplaceBack
  rcases le_or_lt v.capacity v.size with hful | hroom
  · rw [if_pos hful, if_pos hful]
    show (copyN v.data 0
      (constructAt (RawMemory.allocate α (if v.size = 0 then 1 else v.size * 2)) v.size x)
      0 v.size).capacity = _
    rw [capacity_copyN, capacity_constructAt, capacity_allocate]
  · rw [if_neg (by omega), if_neg (by omega)]
    show (constructAt v.data v.size x).capacity = _
    rw [capacity_constructAt, data_capacity]

theorem slot_EmplaceBack [Inhabited α] {v : Vector α} (hwf : v.WF) (x : α) (i : Nat) :
    slotAt (v.EmplaceBack x).data i =
      if i < v.size then slotAt v.data i
      else if i = v.size then some x
      else none := by
  have hsz := hwf.1
  unfold EmplaceBack
  rcases le_or_lt v.capacity v.size with hful | hroom
  · rw [if_pos hful]
    have hlt : v.size < (if v.size = 0 then 1 else v.size * 2) := by
      split_ifs <;> omega
    show slotAt (copyN v.data 0
      (constructAt (RawMemory.allocate α (if v.size = 0 then 1 else v.size * 2)) v.size x)
      0 v.size) i = _
    rw [slotAt_copyN, slotAt_constructAt]
    simp only [capacity_constructAt, capacity_allocate, Nat.zero_add, Nat.sub_zero]
    split_ifs <;>
      first
      | rfl
      | omega
      | (exact (slot_eq_some_readAt (hwf.live (by omega))).symm)
      | (exact slotAt_allocate _ _)
  · rw [if_neg (by omega)]
    show slotAt (constructAt v.data v.size x) i = _
    rw [slotAt_constructAt]
    simp only [data_capacity]
    split_ifs <;> first | rfl | omega | (exact hwf.raw (by omega))

theorem elems_EmplaceBack [Inhabited α] {v : Vector α} (hwf : v.WF) (x : α) :
    (v.EmplaceBack x).elems = v.elems ++ [x] := by
  unfold elems
  rw [size_EmplaceBack, List.range_succ, List.map_append]
  congr 1
  · refine List.map_congr_left ?_
    intro i hi
    have hi2 := List.mem_range.mp hi
    unfold readAt
    rw [slot_EmplaceBack hwf, if_pos hi2]
  · simp only [List.map_cons, List.map_nil]
    unfold readAt
    rw [slot_EmplaceBack hwf, if_neg (by omega), if_pos rfl]
    rfl

theorem WF_EmplaceBack [Inhabited α] {v : Vector α} (hwf : v.WF) (x : α) :
    (v.EmplaceBack x).WF := by
  have hsz := hwf.1
  refine WF_of_slots ?_ ?_ ?_
  · rw [size_EmplaceBack, capacity_EmplaceBack]
    split_ifs <;> omega
  · intro i hi
    rw [size_EmplaceBack] at hi
    rw [slot_EmplaceBack hwf]
    split_ifs
    all_goals first | rfl | (exact hwf.live (by omega)) | omega
  · intro i hi _
    rw [size_EmplaceBack] at hi
    rw [slot_EmplaceBack hwf, if_neg (by omega), if_neg (by omega)]

theorem size_Emplace [Inhabited α] (v : Vector α) (d : Nat) (x : α) :
    (v.Emplace d x).size = v.size + 1 := by
  unfold Emplace
  split_ifs <;> rfl

theorem capacity_Emplace [Inhabited α] (v : Vector α) (d : Nat) (x : α) :
    (v.Emplace d x).capacity =
      if v.capacity ≤ v.size then (if v.size = 0 then 1 else v.size * 2)
      else v.capacity := by
  unfold Emplace
  rcases le_or_lt v.capacity v.size with hful | hroom
  · rw [if_pos hful, if_pos hful]
    show (copyN v.data d
      (copyN v.data 0
        (constructAt (RawMemory.allocate α (if v.size = 0 then 1 else v.size * 2)) d x)
        0 d)
      (d + 1) (v.size - d)).capacity = _
    rw [capacity_copyN, capacity_copyN, capacity_constructAt, capacity_allocate]
  · by_cases hdne : d ≠ v.size
    · rw [if_neg (by omega), if_pos hdne, if_neg (by omega)]
      show (assignAt
        (moveBackwardK (constructAt v.data v.size (readAt v.data (v.size - 1)))
          (v.size - 1) (v.size - 1 - d))
        d x).capacity = _
      rw [capacity_assignAt, capacity_moveBackwardK, capacity_constructAt, data_capacity]
    · rw [if_neg (by omega), if_neg hdne, if_neg (by omega)]
      show (constructAt v.data v.size x).capacity = _
      rw [capacity_constructAt, data_capacity]

theorem slot_Emplace [Inhabited α] {v : Vector α} (hwf : v.WF) {d : Nat}
    (hd : d ≤ v.size) (x : α) (i : Nat) :
    slotAt (v.Emplace d x).data i =
      if i < d then slotAt v.data i
      else if i = d then some x
      else if i ≤ v.size then slotAt v.data (i - 1)
      else none := by
  have hsz := hwf.1
  unfold Emplace
  rcases le_or_lt v.capacity v.size with hful | hroom
  · rw [if_pos hful]
    have hlt : v.size < (if v.size = 0 then 1 else v.size * 2) := by
      split_ifs <;> omega
    show slotAt (copyN v.data d
      (copyN v.data 0
        (constructAt (RawMemory.allocate α (if v.size = 0 then 1 else v.size * 2)) d x)
        0 d)
      (d + 1) (v.size - d)) i = _
    rw [slotAt_copyN, slotAt_copyN, slotAt_constructAt]
    simp only [capacity_copyN, capacity_constructAt, capacity_allocate,
      Nat.zero_add, Nat.sub_zero]
    split_ifs <;>
      first
      | rfl
      | omega
      | (exact (slot_eq_some_readAt (hwf.live (by omega))).symm)
      | (exact slotAt_allocate _ _)
      | (rw [(by omega : d + (i - (d + 1)) = i - 1)]
         exact (slot_eq_some_readAt (hwf.live (by omega))).symm)
  · rw [if_neg (by omega)]
    by_cases hdne : d ≠ v.size
    · rw [if_pos hdne]
      have hdlt : d < v.size := by omega
      show slotAt (assignAt
        (moveBackwardK (constructAt v.data v.size (readAt v.data (v.size - 1)))
          (v.size - 1) (v.size - 1 - d))
        d x) i = _
      have hcap2 : v.size - 1 <
          (constructAt v.data v.size (readAt v.data (v.size - 1))).capacity := by
        rw [capacity_constructAt, data_capacity]
        omega
      have hlive2 : ∀ j, v.size - 1 - (v.size - 1 - d) ≤ j → j < v.size - 1 →
          (slotAt (constructAt v.data v.size (readAt v.data (v.size - 1))) j).isSome
            = true := by
        intro j hj1 hj2
        rw [slotAt_constructAt, if_neg (by omega)]
        exact hwf.live (by omega)
      have hmb := slotAt_moveBackwardK (v.size - 1 - d) (v.size - 1)
        (constructAt v.data v.size (readAt v.data (v.size - 1)))
        (by omega) hcap2 hlive2
      rw [slotAt_assignAt]
      simp only [capacity_moveBackwardK, capacity_constructAt, data_capacity]
      rw [hmb i, slotAt_constructAt, slotAt_constructAt]
      simp only [data_capacity]
      split_ifs <;>
        first
        | rfl
        | omega
        | (exact hwf.raw (by omega))
        | (rw [(by omega : i - 1 = v.size - 1)]
           exact (slot_eq_some_readAt (hwf.live (by omega))).symm)
    · rw [if_neg hdne]
      have hde : d = v.size := by omega
      show slotAt (constructAt v.data v.size x) i = _
      rw [slotAt_constructAt]
      simp only [data_capacity]
      split_ifs <;> first | rfl | omega | (exact hwf.raw (by omega))

theorem WF_Emplace [Inhabited α] {v : Vector α} (hwf : v.WF) {d : Nat}
    (hd : d ≤ v.size) (x : α) : (v.Emplace d x).WF := by
  have hsz := hwf.1
  refine WF_of_slots ?_ ?_ ?_
  · rw [size_Emplace, capacity_Emplace]
    split_ifs <;> omega
  · intro i hi
    rw [size_Emplace] at hi
    rw [slot_Emplace hwf hd]
    split_ifs
    all_goals first | rfl | (exact hwf.live (by omega)) | omega
  · intro i hi _
    rw [size_Emplace] at hi
    rw [slot_Emplace hwf hd, if_neg (by omega), if_neg (by omega), if_neg (by omega)]

theorem size_Erase [Inhabited α] (v : Vector α) (d : Nat) :
    (v.Erase d).size = v.size - 1 := rfl

theorem capacity_Erase [Inhabited α] (v : Vector α) (d : Nat) :
    (v.Erase d).capacity = v.capacity := by
  show (destroyAt (moveForwardK v.data (d + 1) (v.size - (d + 1)))
    (v.size - 1)).capacity = _
  rw [capacity_destroyAt, capacity_moveForwardK, data_capacity]

theorem slot_Erase [Inhabited α] {v : Vector α} (hwf : v.WF) {d : Nat}
    (hd : d < v.size) (i : Nat) :
    slotAt (v.Erase d).data i =
      if i < d then slotAt v.data i
      else if i + 1 < v.size then slotAt v.data (i + 1)
      else none := by
  have hsz := hwf.1
  show slotAt (destroyAt (moveForwardK v.data (d + 1) (v.size - (d + 1)))
    (v.size - 1)) i = _
  have hcap2 : d + 1 - 1 + (v.size - (d + 1)) ≤ v.data.capacity := by
    rw [data_capacity]
    omega
  have hlive2 : ∀ j, d + 1 ≤ j → j < d + 1 + (v.size - (d + 1)) →
      (slotAt v.data j).isSome = true := by
    intro j hj1 hj2
    exact hwf.live (by omega)
  have hmf := slotAt_moveForwardK (v.size - (d + 1)) (d + 1) v.data
    (by omega) hcap2 hlive2
  rw [slotAt_destroyAt]
  simp only [capacity_moveForwardK, data_capacity]
  rw [hmf i]
  split_ifs <;> first | rfl | omega | (exact hwf.raw (by omega))

theorem WF_Erase [Inhabited α] {v : Vector α} (hwf : v.WF) {d : Nat}
    (hd : d < v.size) : (v.Erase d).WF := by
  have hsz := hwf.1
  refine WF_of_slots ?_ ?_ ?_
  · rw [size_Erase, capacity_Erase]
    omega
  · intro i hi
    rw [size_Erase] at hi
    rw [slot_Erase hwf hd]
    split_ifs
    all_goals first | rfl | (exact hwf.live (by omega)) | omega
  · intro i hi _
    rw [size_Erase] at hi
    rw [slot_Erase hwf hd, if_neg (by omega), if_neg (by omega)]

theorem WF_moveCtorNew {v : Vector α} (hwf : v.WF) : (moveCtor v).1.WF := hwf

theorem WF_moveCtorSrc (v : Vector α) : (moveCtor v).2.WF := WF_nil

theorem WF_swapFst {a b : Vector α} (hb : b.WF) : (swap a b).1.WF := hb

theorem WF_swapSnd {a b : Vector α} (ha : a.WF) : (swap a b).2.WF := ha

theorem WF_copyAssign [Inhabited α] {a b : Vector α} (ha : a.WF) (hb : b.WF) :
    (copyAssign a b).WF := by
  unfold copyAssign
  rcases le_or_lt b.size a.capacity with h1 | h1
  · rw [if_pos h1]
    rcases le_or_lt a.size b.size with h2 | h2
    · rw [if_pos h2]
      refine WF_of_slots ?_ ?_ ?_
      · show b.size ≤ (copyN b.data a.size (copyN b.data 0 a.data 0 a.size)
          a.size (b.size - a.size)).capacity
        rw [capacity_copyN, capacity_copyN, data_capacity]
        exact h1
      · intro i hi
        have hi2 : i < b.size := hi
        show (slotAt (copyN b.data a.size (copyN b.data 0 a.data 0 a.size)
          a.size (b.size - a.size)) i).isSome = true
        rw [slotAt_copyN, slotAt_copyN]
        simp only [capacity_copyN, data_capacity, Nat.zero_add, Nat.sub_zero]
        split_ifs <;> first | rfl | omega
      · intro i hi _
        have hi2 : b.size ≤ i := hi
        show slotAt (copyN b.data a.size (copyN b.data 0 a.data 0 a.size)
          a.size (b.size - a.size)) i = none
        rw [slotAt_copyN, slotAt_copyN]
        simp only [capacity_copyN, data_capacity, Nat.zero_add, Nat.sub_zero]
        rw [if_neg (by omega), if_neg (by omega)]
        exact ha.raw (by omega)
    · rw [if_neg (by omega)]
      refine WF_of_slots ?_ ?_ ?_
      · show b.size ≤ (destroyN (copyN b.data 0 a.data 0 b.size)
          b.size (a.size - b.size)).capacity
        rw [capacity_destroyN, capacity_copyN, data_capacity]
        omega
      · intro i hi
        have hi2 : i < b.size := hi
        show (slotAt (destroyN (copyN b.data 0 a.data 0 b.size)
          b.size (a.size - b.size)) i).isSome = true
        rw [slotAt_destroyN, if_neg (by omega), slotAt_copyN]
        simp only [data_capacity, Nat.zero_add, Nat.sub_zero]
        rw [if_pos (by omega)]
        rfl
      · intro i hi _
        have hi2 : b.size ≤ i := hi
        show slotAt (destroyN (copyN b.data 0 a.data 0 b.size)
          b.size (a.size - b.size)) i = none
        rw [slotAt_destroyN, slotAt_copyN]
        simp only [data_capacity, Nat.zero_add, Nat.sub_zero]
        split_ifs <;> first | rfl | omega | (exact ha.raw (by omega))
  · rw [if_neg (by omega)]
    exact WF_copyCtor hb

theorem elems_Resize_shrink [Inhabited α] {v : Vector α} (hwf : v.WF) {n : Nat}
    (h : n ≤ v.size) : (v.Resize n).elems = v.elems.take n := by
  unfold elems
  rw [Resize_size, ← List.map_take, List.take_range, (by omega : min n v.size = n)]
  refine List.map_congr_left ?_
  intro i hi
  have hi2 := List.mem_range.mp hi
  unfold readAt
  rw [slot_Resize hwf, if_pos (by omega)]

theorem elems_Resize_grow [Inhabited α] {v : Vector α} (hwf : v.WF) {n : Nat}
    (h : v.size ≤ n) :
    (v.Resize n).elems = v.elems ++ List.replicate (n - v.size) default := by
  unfold elems
  rw [Resize_size]
  obtain ⟨k, hk⟩ : ∃ k, n = v.size + k := ⟨n - v.size, by omega⟩
  subst hk
  rw [List.range_add, List.map_append, List.map_map, Nat.add_sub_cancel_left]
  congr 1
  · refine List.map_congr_left ?_
    intro i hi
    have hi2 := List.mem_range.mp hi
    unfold readAt
    rw [slot_Resize hwf, if_pos (by omega)]
  · have hconst : ∀ i ∈ List.range k,
        readAt (v.Resize (v.size + k)).data (v.size + i) = (default : α) := by
      intro i hi
      have hi2 := List.mem_range.mp hi
      unfold readAt
      rw [slot_Resize hwf, if_neg (by omega), if_pos (by omega)]
      rfl
    calc (List.range k).map (fun i => readAt (v.Resize (v.size + k)).data (v.size + i))
        = (List.range k).map (fun _ => (default : α)) := List.map_congr_left hconst
      _ = List.replicate k default := by
          rw [List.map_const', List.length_range]

theorem size_ResizeGrowFail [Inhabited α] (v : Vector α) (n j : Nat) :
    (ResizeGrowFail v n j).size = v.size := rfl

theorem slot_ResizeGrowFail [Inhabited α] {v : Vector α} (hwf : v.WF)
    (n j : Nat) (i : Nat) :
    slotAt (ResizeGrowFail v n j).data i =
      if i < v.size then slotAt v.data i else none := by
  have hB : ∀ m, slotAt (if v.capacity < n then v.Reserve n else v).data m =
      if m < v.size then slotAt v.data m else none := by
    intro m
    split_ifs with h2 h3
    · rw [slot_Reserve_of_gt hwf h2, if_pos h3]
    · rw [slot_Reserve_of_gt hwf h2, if_neg h3]
    · rfl
    · exact hwf.raw (by omega)
  show slotAt (destroyN
    (valueConstructN (if v.capacity < n then v.Reserve n else v).data v.size j)
    v.size j) i = _
  rw [slotAt_destroyN, slotAt_valueConstructN, hB i]
  split_ifs <;> first | rfl | omega

theorem elems_ResizeGrowFail [Inhabited α] {v : Vector α} (hwf : v.WF)
    (n j : Nat) : (ResizeGrowFail v n j).elems = v.elems := by
  refine elems_congr (size_ResizeGrowFail v n j) ?_
  intro i hi
  unfold readAt
  rw [slot_ResizeGrowFail hwf, if_pos hi]

theorem RawMemory_ext_slots {a b : RawMemory α} (hcap : a.capacity = b.capacity)
    (h : ∀ i, slotAt a i = slotAt b i) : a = b := by
  have hlen : a.slots.length = b.slots.length := hcap
  cases a with
  | mk la =>
      cases b with
      | mk lb =>
          congr 1
          apply List.ext_getElem hlen
          intro i h1 h2
          have hh := h i
          simp only [slotAt, List.getD_eq_getElem?_getD, List.getElem?_eq_getElem h1,
            List.getElem?_eq_getElem h2] at hh
          simpa using hh

theorem WF_Reachable [Inhabited α] {v : Vector α} (h : Reachable v) : v.WF := by
  induction h with
  | nil => exact WF_nil
  | ofSize n => exact WF_ofSize n
  | copyCtor _ ih => exact WF_copyCtor ih
  | moveCtorNew _ ih => exact ih
  | moveCtorSrc _ _ => exact WF_nil
  | copyAssign _ _ iha ihb => exact WF_copyAssign iha ihb
  | moveAssignDst _ _ iha ihb => exact ihb
  | moveAssignSrc _ _ iha ihb => exact iha
  | swapFst _ _ iha ihb => exact ihb
  | swapSnd _ _ iha ihb => exact iha
  | reserve n _ ih => exact WF_Reserve ih n
  | resize n _ ih => exact WF_Resize ih n
  | pushBack x _ ih => exact WF_EmplaceBack ih x
  | emplaceBack x _ ih => exact WF_EmplaceBack ih x
  | popBack _ hpos ih => exact WF_PopBack ih hpos
  | emplace d x _ hd ih => exact WF_Emplace ih hd x
  | insert d x _ hd ih => exact WF_Emplace ih hd x
  | erase d _ hd ih => exact WF_Erase ih hd

end OpLemmas

end Vector

open Vector

section Claims

/-- C1: if EmplaceBack triggers a reallocation (capacity at most size) and the
relocation of the existing elements into the new buffer throws while
processing element k, then the vector afterwards has exactly the size,
capacity and element values it had immediately before the call, the catch
handler destroys the newly constructed element while that element is still
alive (no double destruction), and the discarded new buffer ends fully raw
(equal to a freshly allocated block of the same capacity), so no object
leaks: the strong exception-safety guarantee. -/
theorem C1_emplaceBack_growth_strong_safety {α : Type} [Inhabited α]
    (v : Vector α) (x : α) (k : Nat) (hwf : v.WF)
    (hfull : v.capacity ≤ v.size) (hk : k < v.size) :
    (EmplaceBackGrowFail v x k).1.size = v.size ∧
    (EmplaceBackGrowFail v x k).1.capacity = v.capacity ∧
    (EmplaceBackGrowFail v x k).1.elems = v.elems ∧
    (slotAt (destroyN (copyN v.data 0
        (constructAt (RawMemory.allocate α (if v.size = 0 then 1 else v.size * 2))
          v.size x)
        0 k) 0 k) v.size).isSome = true ∧
    (EmplaceBackGrowFail v x k).2 =
      RawMemory.allocate α (if v.size = 0 then 1 else v.size * 2) := by
  have hlt : v.size < (if v.size = 0 then 1 else v.size * 2) := by
    split_ifs <;> omega
  refine ⟨rfl, rfl, rfl, ?_, ?_⟩
  · rw [slotAt_destroyN, slotAt_copyN, slotAt_constructAt]
    simp only [capacity_copyN, capacity_constructAt, capacity_allocate,
      Nat.zero_add, Nat.sub_zero]
    rw [if_neg (by omega), if_neg (by omega)]
    simp [hlt]
  · refine RawMemory_ext_slots ?_ ?_
    · show (destroyAt (destroyN (copyN v.data 0
        (constructAt (RawMemory.allocate α (if v.size = 0 then 1 else v.size * 2))
          v.size x)
        0 k) 0 k) v.size).capacity = _
      simp only [capacity_destroyAt, capacity_destroyN, capacity_copyN,
        capacity_constructAt, capacity_allocate]
    · intro i
      show slotAt (destroyAt (destroyN (copyN v.data 0
        (constructAt (RawMemory.allocate α (if v.size = 0 then 1 else v.size * 2))
          v.size x)
        0 k) 0 k) v.size) i = _
      rw [slotAt_allocate, slotAt_destroyAt, slotAt_destroyN, slotAt_copyN,
        slotAt_constructAt]
      simp only [capacity_destroyN, capacity_copyN, capacity_constructAt,
        capacity_allocate, Nat.zero_add, Nat.sub_zero]
      split_ifs <;> first | rfl | omega | (exact slotAt_allocate _ _)

/-- Witness for C1: the vector [4, 9] at full capacity 2, new element 7, with
the relocation throwing at element k = 1. -/
theorem C1_witness :
    (EmplaceBackGrowFail (⟨⟨[some 4, some 9]⟩, 2⟩ : Vector Nat) 7 1).1.size = 2 ∧
    (EmplaceBackGrowFail (⟨⟨[some 4, some 9]⟩, 2⟩ : Vector Nat) 7 1).1.capacity = 2 ∧
    (EmplaceBackGrowFail (⟨⟨[some 4, some 9]⟩, 2⟩ : Vector Nat) 7 1).1.elems =
      (⟨⟨[some 4, some 9]⟩, 2⟩ : Vector Nat).elems ∧
    (slotAt (destroyN (copyN (⟨⟨[some 4, some 9]⟩, 2⟩ : Vector Nat).data 0
        (constructAt (RawMemory.allocate Nat (if 2 = 0 then 1 else 2 * 2)) 2 7)
        0 1) 0 1) 2).isSome = true ∧
    (EmplaceBackGrowFail (⟨⟨[some 4, some 9]⟩, 2⟩ : Vector Nat) 7 1).2 =
      RawMemory.allocate Nat (if 2 = 0 then 1 else 2 * 2) :=
  C1_emplaceBack_growth_strong_safety (⟨⟨[some 4, some 9]⟩, 2⟩ : Vector Nat) 7 1
    (by decide) (by decide) (by decide)

/-- C2 (code bug witness): for the vector [10, 20] at full capacity 2, Emplace
at offset 2 on the reallocation path with relocation throwing while copying
element 0 of the prefix: the relocation algorithm has already destroyed its
partially constructed objects, yet the catch handler runs destroy_n over the
first distance + 1 = 3 slots of the new buffer, of which only slot 2 (the new
element) is alive - it therefore issues 2 destructor calls on slots that hold
no live object (undefined behaviour), while the vector itself is untouched. -/
theorem C2_emplace_growth_catch_destroys_raw_slots :
    (EmplaceGrowFail (⟨⟨[some 10, some 20]⟩, 2⟩ : Vector Nat) 2 5 0).2.2 = 2 ∧
    (EmplaceGrowFail (⟨⟨[some 10, some 20]⟩, 2⟩ : Vector Nat) 2 5 0).1 =
      (⟨⟨[some 10, some 20]⟩, 2⟩ : Vector Nat) := by
  constructor
  · decide
  · rfl

/-- C3 counterexample: with B = [2, 3] and A = [1], the move assignment
B = move(A) is modelled by moveAssign B A; afterwards A (the source, second
component) has size 2 and capacity 2, not size 0 and capacity 0, because move
assignment swaps the two containers. -/
theorem C3_counterexample :
    ¬ ((moveAssign (⟨⟨[some 2, some 3]⟩, 2⟩ : Vector Nat)
          ⟨⟨[some 1]⟩, 1⟩).2.size = 0 ∧
       (moveAssign (⟨⟨[some 2, some 3]⟩, 2⟩ : Vector Nat)
          ⟨⟨[some 1]⟩, 1⟩).2.capacity = 0) := by
  decide

/-- C3 amended: after move construction the new vector holds exactly the old
state and the source is left with size 0 and capacity 0; move assignment
B = move(A) is a full swap, so B receives exactly the state of A and A
receives exactly the previous state of B (hence A ends empty only when B was
empty). -/
theorem C3_move_source_semantics {α : Type} (a : Vector α) :
    (moveCtor a).1 = a ∧
    (moveCtor a).2.size = 0 ∧
    (moveCtor a).2.capacity = 0 ∧
    ∀ b : Vector α, moveAssign b a = (a, b) :=
  ⟨rfl, rfl, rfl, fun _ => rfl⟩

/-- C4: every vector state reachable by a finite sequence of the public
operations (each invoked within its documented precondition) satisfies the
class invariant WF: size is at most capacity, the slots at indices [0, size)
hold live constructed elements, and the slots at [size, capacity) are raw
storage. -/
theorem C4_reachable_states_satisfy_invariant {α : Type} [Inhabited α]
    (v : Vector α) (h : Reachable v) : v.WF :=
  WF_Reachable h

/-- Witness for C4: the state reached by push back 1, push back 2, erase 0. -/
theorem C4_witness :
    ((((Vector.nil : Vector Nat).PushBack 1).PushBack 2).Erase 0).WF :=
  C4_reachable_states_satisfy_invariant _
    (Reachable.erase 0
      (Reachable.pushBack 2 (Reachable.pushBack 1 Reachable.nil)) (by decide))

/-- C5: whenever EmplaceBack, PushBack or Emplace must grow (capacity at most
size), the new capacity equals max 1 (2 * size); concretely, reserving
capacity 2 on an empty vector and pushing back 1, 2, 3 yields capacity
exactly 4 with the three values present, unchanged and in order. -/
theorem C5_growth_capacity {α : Type} [Inhabited α] (v : Vector α) (x : α)
    (d : Nat) (hfull : v.capacity ≤ v.size) (hd : d ≤ v.size) :
    (v.EmplaceBack x).capacity = max 1 (2 * v.size) ∧
    (v.PushBack x).capacity = max 1 (2 * v.size) ∧
    (v.Emplace d x).capacity = max 1 (2 * v.size) ∧
    (((((Vector.nil : Vector Nat).Reserve 2).PushBack 1).PushBack 2).PushBack 3).capacity
      = 4 ∧
    (((((Vector.nil : Vector Nat).Reserve 2).PushBack 1).PushBack 2).PushBack 3).elems
      = [1, 2, 3] := by
  have hcap : (if v.size = 0 then 1 else v.size * 2) = max 1 (2 * v.size) := by
    split_ifs <;> omega
  refine ⟨?_, ?_, ?_, by decide, by decide⟩
  · rw [capacity_EmplaceBack, if_pos hfull, hcap]
  · show (v.EmplaceBack x).capacity = max 1 (2 * v.size)
    rw [capacity_EmplaceBack, if_pos hfull, hcap]
  · rw [capacity_Emplace, if_pos hfull, hcap]

/-- Witness for C5: the vector [7] at full capacity 1, growing through
EmplaceBack, PushBack and Emplace at offset 0. -/
theorem C5_witness :
    ((⟨⟨[some 7]⟩, 1⟩ : Vector Nat).EmplaceBack 5).capacity = max 1 (2 * 1) ∧
    ((⟨⟨[some 7]⟩, 1⟩ : Vector Nat).PushBack 5).capacity = max 1 (2 * 1) ∧
    ((⟨⟨[some 7]⟩, 1⟩ : Vector Nat).Emplace 0 5).capacity = max 1 (2 * 1) ∧
    (((((Vector.nil : Vector Nat).Reserve 2).PushBack 1).PushBack 2).PushBack 3).capacity
      = 4 ∧
    (((((Vector.nil : Vector Nat).Reserve 2).PushBack 1).PushBack 2).PushBack 3).elems
      = [1, 2, 3] :=
  C5_growth_capacity (⟨⟨[some 7]⟩, 1⟩ : Vector Nat) 5 0 (by decide) (by decide)

/-- C6: Reserve with a requested capacity not above the current one is a
no-op (the state is literally unchanged); otherwise the capacity becomes
exactly newCapacity while the size and the element values (and their order)
are unchanged; and the relocation inside Reserve uses move construction
exactly when the element type has a non-throwing move constructor or no copy
constructor, and copy construction otherwise. -/
theorem C6_reserve_contract {α : Type} [Inhabited α] (v : Vector α) (n : Nat)
    (t : Traits) (hwf : v.WF) :
    (n ≤ v.capacity → v.Reserve n = v) ∧
    (v.capacity < n →
      (v.Reserve n).capacity = n ∧ (v.Reserve n).size = v.size ∧
      (v.Reserve n).elems = v.elems) ∧
    (relocateUsesMove t = true ↔
      (t.nothrowMoveConstructible = true ∨ t.copyConstructible = false)) := by
  refine ⟨fun h => Reserve_eq_of_le h,
    fun h => ⟨Reserve_capacity_of_gt h, Reserve_size v n, elems_Reserve hwf n⟩, ?_⟩
  unfold relocateUsesMove
  rcases t with ⟨nm, cc⟩
  cases nm <;> cases cc <;> simp

/-- Witness for C6: the vector [3] with capacity 1, requested capacity 4, and
the traits of a type with a non-throwing move constructor and a copy
constructor. -/
theorem C6_witness :
    (4 ≤ (⟨⟨[some 3]⟩, 1⟩ : Vector Nat).capacity →
      (⟨⟨[some 3]⟩, 1⟩ : Vector Nat).Reserve 4 = ⟨⟨[some 3]⟩, 1⟩) ∧
    ((⟨⟨[some 3]⟩, 1⟩ : Vector Nat).capacity < 4 →
      ((⟨⟨[some 3]⟩, 1⟩ : Vector Nat).Reserve 4).capacity = 4 ∧
      ((⟨⟨[some 3]⟩, 1⟩ : Vector Nat).Reserve 4).size =
        (⟨⟨[some 3]⟩, 1⟩ : Vector Nat).size ∧
      ((⟨⟨[some 3]⟩, 1⟩ : Vector Nat).Reserve 4).elems =
        (⟨⟨[some 3]⟩, 1⟩ : Vector Nat).elems) ∧
    (relocateUsesMove ⟨true, true⟩ = true ↔
      ((true : Bool) = true ∨ (true : Bool) = false)) :=
  C6_reserve_contract (⟨⟨[some 3]⟩, 1⟩ : Vector Nat) 4 ⟨true, true⟩ (by decide)

/-- C7: Resize sets the size to newSize; when shrinking, the elements at
[newSize, size) are destroyed and [0, newSize) are unchanged; when growing,
[0, size) are unchanged and [size, newSize) are value-constructed defaults;
the class invariant is preserved; and because the size field is assigned only
after all construction and destruction succeeded, a growth whose tail
construction throws after j constructed elements leaves both the size and the
element values unchanged. -/
theorem C7_resize_contract {α : Type} [Inhabited α] (v : Vector α) (n j : Nat)
    (hwf : v.WF) :
    (v.Resize n).size = n ∧
    (n ≤ v.size → (v.Resize n).elems = v.elems.take n) ∧
    (v.size ≤ n →
      (v.Resize n).elems = v.elems ++ List.replicate (n - v.size) default) ∧
    (v.Resize n).WF ∧
    (ResizeGrowFail v n j).size = v.size ∧
    (ResizeGrowFail v n j).elems = v.elems :=
  ⟨Resize_size v n, fun h => elems_Resize_shrink hwf h,
   fun h => elems_Resize_grow hwf h, WF_Resize hwf n,
   size_ResizeGrowFail v n j, elems_ResizeGrowFail hwf n j⟩

/-- Witness for C7: the vector [8, 6] with capacity 2, resized to 4, with a
hypothetical tail-construction failure after 1 element. -/
theorem C7_witness :
    ((⟨⟨[some 8, some 6]⟩, 2⟩ : Vector Nat).Resize 4).size = 4 ∧
    (4 ≤ (⟨⟨[some 8, some 6]⟩, 2⟩ : Vector Nat).size →
      ((⟨⟨[some 8, some 6]⟩, 2⟩ : Vector Nat).Resize 4).elems =
        (⟨⟨[some 8, some 6]⟩, 2⟩ : Vector Nat).elems.take 4) ∧
    ((⟨⟨[some 8, some 6]⟩, 2⟩ : Vector Nat).size ≤ 4 →
      ((⟨⟨[some 8, some 6]⟩, 2⟩ : Vector Nat).Resize 4).elems =
        (⟨⟨[some 8, some 6]⟩, 2⟩ : Vector Nat).elems ++
          List.replicate (4 - (⟨⟨[some 8, some 6]⟩, 2⟩ : Vector Nat).size) default) ∧
    ((⟨⟨[some 8, some 6]⟩, 2⟩ : Vector Nat).Resize 4).WF ∧
    (ResizeGrowFail (⟨⟨[some 8, some 6]⟩, 2⟩ : Vector Nat) 4 1).size =
      (⟨⟨[some 8, some 6]⟩, 2⟩ : Vector Nat).size ∧
    (ResizeGrowFail (⟨⟨[some 8, some 6]⟩, 2⟩ : Vector Nat) 4 1).elems =
      (⟨⟨[some 8, some 6]⟩, 2⟩ : Vector Nat).elems :=
  C7_resize_contract (⟨⟨[some 8, some 6]⟩, 2⟩ : Vector Nat) 4 1 (by decide)

/-- C8: for every vector satisfying the invariant and every offset d at most
size, inserting a value at offset d and then erasing offset d yields a vector
whose element sequence equals the original one element-wise. -/
theorem C8_insert_then_erase_restores {α : Type} [Inhabited α] (v : Vector α)
    (d : Nat) (x : α) (hwf : v.WF) (hd : d ≤ v.size) :
    ((v.Insert d x).Erase d).elems = v.elems := by
  show ((v.Emplace d x).Erase d).elems = v.elems
  have hw : (v.Emplace d x).WF := WF_Emplace hwf hd x
  have hsz1 : (v.Emplace d x).size = v.size + 1 := size_Emplace v d x
  have hdw : d < (v.Emplace d x).size := by omega
  refine elems_congr ?_ ?_
  · rw [size_Erase, hsz1]
    omega
  · intro i hi
    unfold readAt
    rw [slot_Erase hw hdw, hsz1, slot_Emplace hwf hd, slot_Emplace hwf hd]
    split_ifs <;> first | rfl | omega | (rw [(by omega : i + 1 - 1 = i)])

/-- Witness for C8: inserting 9 at offset 1 of [5, 6] and erasing offset 1. -/
theorem C8_witness :
    (((⟨⟨[some 5, some 6]⟩, 2⟩ : Vector Nat).Insert 1 9).Erase 1).elems =
      (⟨⟨[some 5, some 6]⟩, 2⟩ : Vector Nat).elems :=
  C8_insert_then_erase_restores (⟨⟨[some 5, some 6]⟩, 2⟩ : Vector Nat) 1 9
    (by decide) (by decide)

/-- C9 counterexample: for the vector [1, 2] with capacity 3, in-place Emplace
at offset 0 whose backward shift throws immediately (0 completed assignments):
after the catch handler runs, the slot at index size = 2 holds no constructed
object, so the container is NOT left with one extra constructed slot beyond
its logical size - the catch handler destroyed that slot before rethrowing. -/
theorem C9_counterexample :
    ¬ (slotAt (EmplaceShiftFail (⟨⟨[some 1, some 2, none]⟩, 2⟩ : Vector Nat) 0).data
        2).isSome = true := by
  decide

/-- C9 amended: if the in-place path of Emplace (capacity above size, offset
d strictly before the end) throws during the backward shift after j completed
move assignments, then the catch handler destroys the just-constructed tail
slot while that slot is still alive (no double destruction, no leak), the
size increment never runs, and the resulting state again has exactly size
live slots in [0, size) and raw storage in [size, capacity): the basic
guarantee, with no extra constructed slot surviving (element values inside
[d, size) may have been disturbed by the partial shift). -/
theorem C9_inplace_shift_failure_basic_guarantee {α : Type} [Inhabited α]
    (v : Vector α) (d j : Nat) (hwf : v.WF) (hroom : v.size < v.capacity)
    (hd : d < v.size) (hj : j < v.size - 1 - d) :
    (EmplaceShiftFail v j).size = v.size ∧
    (slotAt (moveBackwardK (constructAt v.data v.size (readAt v.data (v.size - 1)))
        (v.size - 1) j) v.size).isSome = true ∧
    (EmplaceShiftFail v j).WF := by
  have hsz := hwf.1
  have hcapC : (constructAt v.data v.size (readAt v.data (v.size - 1))).capacity
      = v.capacity := by
    rw [capacity_constructAt, data_capacity]
  have hlive2 : ∀ l, v.size - 1 - j ≤ l → l < v.size - 1 →
      (slotAt (constructAt v.data v.size (readAt v.data (v.size - 1))) l).isSome
        = true := by
    intro l hl1 hl2
    rw [slotAt_constructAt, if_neg (by omega)]
    exact hwf.live (by omega)
  have hmb := slotAt_moveBackwardK j (v.size - 1)
    (constructAt v.data v.size (readAt v.data (v.size - 1)))
    (by omega) (by rw [hcapC]; omega) hlive2
  refine ⟨rfl, ?_, ?_⟩
  · rw [hmb v.size, if_neg (by omega), slotAt_constructAt, if_pos ⟨rfl, hroom⟩]
    rfl
  · refine WF_of_slots ?_ ?_ ?_
    · show v.size ≤ (destroyAt
        (moveBackwardK (constructAt v.data v.size (readAt v.data (v.size - 1)))
          (v.size - 1) j) v.size).capacity
      rw [capacity_destroyAt, capacity_moveBackwardK, hcapC]
      omega
    · intro i hi
      have hi2 : i < v.size := hi
      show (slotAt (destroyAt
        (moveBackwardK (constructAt v.data v.size (readAt v.data (v.size - 1)))
          (v.size - 1) j) v.size) i).isSome = true
      rw [slotAt_destroyAt]
      simp only [capacity_moveBackwardK, hcapC]
      rw [if_neg (by omega), hmb i]
      split_ifs with h1
      · rw [slotAt_constructAt, if_neg (by omega)]
        exact hwf.live (by omega)
      · rw [slotAt_constructAt, if_neg (by omega)]
        exact hwf.live (by omega)
    · intro i hi _
      have hi2 : v.size ≤ i := hi
      show slotAt (destroyAt
        (moveBackwardK (constructAt v.data v.size (readAt v.data (v.size - 1)))
          (v.size - 1) j) v.size) i = none
      rw [slotAt_destroyAt]
      simp only [capacity_moveBackwardK, hcapC]
      split_ifs with h1
      · rfl
      · rw [hmb i, if_neg (by omega), slotAt_constructAt, if_neg (by omega)]
        exact hwf.raw (by omega)

/-- Witness for C9: the vector [1, 2, 3] with capacity 4, in-place Emplace at
offset 0 with the shift throwing after 1 completed assignment. -/
theorem C9_witness :
    (EmplaceShiftFail (⟨⟨[some 1, some 2, some 3, none]⟩, 3⟩ : Vector Nat) 1).size
      = 3 ∧
    (slotAt (moveBackwardK
        (constructAt (⟨⟨[some 1, some 2, some 3, none]⟩, 3⟩ : Vector Nat).data 3
          (readAt (⟨⟨[some 1, some 2, some 3, none]⟩, 3⟩ : Vector Nat).data 2))
        2 1) 3).isSome = true ∧
    (EmplaceShiftFail (⟨⟨[some 1, some 2, some 3, none]⟩, 3⟩ : Vector Nat) 1).WF :=
  C9_inplace_shift_failure_basic_guarantee
    (⟨⟨[some 1, some 2, some 3, none]⟩, 3⟩ : Vector Nat) 0 1
    (by decide) (by decide) (by decide) (by decide)

/-- C10: Resize to a newSize strictly above the current capacity sets the
capacity to exactly newSize - the growth goes through Reserve newSize, not
through doubling, so a growing resize never over-allocates. -/
theorem C10_resize_sets_exact_capacity {α : Type} [Inhabited α] (v : Vector α)
    (n : Nat) (hwf : v.WF) (h : v.capacity < n) :
    (v.Resize n).capacity = n := by
  rw [Resize_capacity hwf.1]
  omega

/-- Witness for C10: the vector [1] with capacity 1 resized to 5. -/
theorem C10_witness :
    ((⟨⟨[some 1]⟩, 1⟩ : Vector Nat).Resize 5).capacity = 5 :=
  C10_resize_sets_exact_capacity (⟨⟨[some 1]⟩, 1⟩ : Vector Nat) 5
    (by decide) (by decide)

end Claims

end AdvVec
